import Mathlib

/-!
Verification of the istos graph library.

The library exposes one graph contract implemented by two engines:
a dense engine (`UndirectedGraph`, a packed triangular adjacency matrix
over a `Vec<bool>`) and a sparse engine (`UndirectedSparseGraph`, an
explicit edge list).  Vertices are `(id, payload)` pairs held in a
vector; external handles are the ids, internal positions are vector
indices.

Rust `Vec` operations that can panic (`insert`, `remove`, indexing,
`Option::unwrap`) are modelled as `Option`-returning functions where
`none` stands for a panic; everything else is translated directly.
-/

namespace Istos

/-- Models Rust `Vec::insert(index, value)`, which panics (`none`) when
`index > len`. -/
def insertVec {α : Type} : List α → Nat → α → Option (List α)
  | l, 0, a => some (a :: l)
  | [], _ + 1, _ => none
  | x :: xs, n + 1, a => (insertVec xs n a).map (fun l => x :: l)

/-- Models Rust `Vec::remove(index)`, which panics (`none`) when
`index >= len`. -/
def removeVec {α : Type} : List α → Nat → Option (List α)
  | [], _ => none
  | _ :: xs, 0 => some xs
  | x :: xs, n + 1 => (removeVec xs n).map (fun l => x :: l)

/-- Models Rust `vec[index] = value`, which panics (`none`) when
`index >= len`. -/
def setVec {α : Type} : List α → Nat → α → Option (List α)
  | [], _, _ => none
  | _ :: xs, 0, a => some (a :: xs)
  | x :: xs, n + 1, a => (setVec xs n a).map (fun l => x :: l)

/-- Models Rust `Iterator::position(pred)`. -/
def listPosition {α : Type} (p : α → Bool) : List α → Option Nat
  | [] => none
  | x :: xs => if p x then some 0 else (listPosition p xs).map (fun n => n + 1)

/-- Models the Rust in-place update `vertices[pos].1 = data` (and the
`iter_mut().find(..)` variant): replace the payload stored at a position,
keeping the id. -/
def setData {T : Type} : List (Nat × T) → Nat → T → List (Nat × T)
  | [], _, _ => []
  | x :: xs, 0, d => (x.1, d) :: xs
  | x :: xs, n + 1, d => x :: setData xs n d

/-- The dense engine `UndirectedGraph<T>` from `undirected_graph.rs`:
vertex records, a packed adjacency matrix as a `Vec<bool>`, and the next
fresh id. -/
structure UndirectedGraph (T : Type) where
  vertices : List (Nat × T)
  edges : List Bool
  next_id : Nat
  deriving DecidableEq

namespace UndirectedGraph

/-- Translation of `UndirectedGraph::new`. -/
def new (T : Type) : UndirectedGraph T := ⟨[], [], 0⟩

/-- Translation of `UndirectedGraph::index_vector_with_coords`: maps the
(x, y) coordinates of the symmetric matrix onto the packed vector, using
the current `self.vertices.len()`. -/
def index_vector_with_coords {T : Type} (g : UndirectedGraph T) (x y : Nat) : Nat :=
  if x ≤ y then (g.vertices.length * 2 - x - 1) * x / 2 + y
  else (g.vertices.length * 2 - y - 1) * y / 2 + x

/-- Translation of `UndirectedGraph::get_index_from_id`. -/
def get_index_from_id {T : Type} (g : UndirectedGraph T) (i : Nat) : Option Nat :=
  listPosition (fun x => x.1 == i) g.vertices

/-- Translation of `UndirectedGraph::add_vertex`: for `i in 0..=size`
insert `false` at offset `size * i` (each insert may panic), push the
vertex, bump `next_id`, return the id. -/
def add_vertex {T : Type} (g : UndirectedGraph T) (data : T) :
    Option (UndirectedGraph T × Nat) :=
  let i := g.next_id
  let size := g.vertices.length
  match (List.range (size + 1)).foldlM (fun es k => insertVec es (size * k) false) g.edges with
  | none => none
  | some es => some (⟨g.vertices ++ [(i, data)], es, g.next_id + 1⟩, i)

/-- Translation of `UndirectedGraph::remove_vertex`: no-op when the id
does not resolve; otherwise remove, for `i in (0..size).rev()`, the cell
at `index_vector_with_coords(pos, i)` (each removal may panic), then
remove the vertex record. -/
def remove_vertex {T : Type} (g : UndirectedGraph T) (vertex_id : Nat) :
    Option (UndirectedGraph T) :=
  match g.get_index_from_id vertex_id with
  | none => some g
  | some pos =>
    let size := g.vertices.length
    match (List.range size).reverse.foldlM
        (fun es k => removeVec es (g.index_vector_with_coords pos k)) g.edges with
    | none => none
    | some es => some ⟨g.vertices.eraseIdx pos, es, g.next_id⟩

/-- Translation of `UndirectedGraph::add_edge`: no-op when either id does
not resolve; otherwise set the packed cell to `true` (may panic). -/
def add_edge {T : Type} (g : UndirectedGraph T) (v1 v2 : Nat) :
    Option (UndirectedGraph T) :=
  match g.get_index_from_id v1 with
  | none => some g
  | some pos_1 =>
    match g.get_index_from_id v2 with
    | none => some g
    | some pos_2 =>
      (setVec g.edges (g.index_vector_with_coords pos_1 pos_2) true).map
        (fun es => { g with edges := es })

/-- Translation of `UndirectedGraph::remove_edge`: no-op when either id
does not resolve; otherwise set the packed cell to `false` (may panic). -/
def remove_edge {T : Type} (g : UndirectedGraph T) (v1 v2 : Nat) :
    Option (UndirectedGraph T) :=
  match g.get_index_from_id v1 with
  | none => some g
  | some pos_1 =>
    match g.get_index_from_id v2 with
    | none => some g
    | some pos_2 =>
      (setVec g.edges (g.index_vector_with_coords pos_1 pos_2) false).map
        (fun es => { g with edges := es })

/-- Translation of `UndirectedGraph::get_vertex_data`. -/
def get_vertex_data {T : Type} (g : UndirectedGraph T) (vertex_id : Nat) : Option T :=
  (g.vertices.find? (fun x => x.1 == vertex_id)).map (fun x => x.2)

/-- Translation of `UndirectedGraph::set_vertex_data`: no-op when the id
does not resolve; otherwise overwrite the payload in place. -/
def set_vertex_data {T : Type} (g : UndirectedGraph T) (vertex_id : Nat) (data : T) :
    UndirectedGraph T :=
  match g.get_index_from_id vertex_id with
  | none => g
  | some pos => { g with vertices := setData g.vertices pos data }

/-- Translation of `UndirectedGraph::is_adjacent`: `false` when either id
does not resolve; otherwise read the packed cell (may panic). -/
def is_adjacent {T : Type} (g : UndirectedGraph T) (v1 v2 : Nat) : Option Bool :=
  match g.get_index_from_id v1 with
  | none => some false
  | some pos_1 =>
    match g.get_index_from_id v2 with
    | none => some false
    | some pos_2 => g.edges[g.index_vector_with_coords pos_1 pos_2]?

/-- Translation of `UndirectedGraph::get_neighbors`: scan the vertex
records in order and collect those adjacent to `vertex_id`. -/
def get_neighbors {T : Type} (g : UndirectedGraph T) (vertex_id : Nat) :
    Option (List Nat) :=
  g.vertices.foldlM
    (fun res x =>
      match g.is_adjacent vertex_id x.1 with
      | none => none
      | some true => some (res ++ [x.1])
      | some false => some res) []

/-- Structural invariant of the dense engine maintained by every
successful operation: the packed matrix has exactly V(V+1)/2 cells, vertex
ids are pairwise distinct, and every stored id is below `next_id`. -/
def invariant {T : Type} (g : UndirectedGraph T) : Prop :=
  g.edges.length = g.vertices.length * (g.vertices.length + 1) / 2 ∧
  (g.vertices.map Prod.fst).Nodup ∧
  ∀ i ∈ g.vertices.map Prod.fst, i < g.next_id

instance {T : Type} (g : UndirectedGraph T) : Decidable g.invariant := by
  unfold invariant
  infer_instance

end UndirectedGraph

/-- The sparse engine `UndirectedSparseGraph<T>` from
`undirected_sparse_graph.rs`: vertex records, an edge list of id pairs,
and the next fresh id. -/
structure UndirectedSparseGraph (T : Type) where
  vertices : List (Nat × T)
  edges : List (Nat × Nat)
  next_id : Nat
  deriving DecidableEq

namespace UndirectedSparseGraph

/-- Translation of `UndirectedSparseGraph::new`. -/
def new (T : Type) : UndirectedSparseGraph T := ⟨[], [], 0⟩

/-- Translation of `UndirectedSparseGraph::add_vertex`. -/
def add_vertex {T : Type} (g : UndirectedSparseGraph T) (data : T) :
    UndirectedSparseGraph T × Nat :=
  (⟨g.vertices ++ [(g.next_id, data)], g.edges, g.next_id + 1⟩, g.next_id)

/-- Translation of `UndirectedSparseGraph::remove_vertex`: retain vertex
records whose id differs, and edges touching the id in neither slot. -/
def remove_vertex {T : Type} (g : UndirectedSparseGraph T) (vertex_id : Nat) :
    UndirectedSparseGraph T :=
  ⟨g.vertices.filter (fun x => x.1 != vertex_id),
   g.edges.filter (fun x => x.1 != vertex_id && x.2 != vertex_id),
   g.next_id⟩

/-- Translation of `UndirectedSparseGraph::add_edge`: push the pair
unconditionally. -/
def add_edge {T : Type} (g : UndirectedSparseGraph T) (v1 v2 : Nat) :
    UndirectedSparseGraph T :=
  { g with edges := g.edges ++ [(v1, v2)] }

/-- Translation of `UndirectedSparseGraph::remove_edge`: retain pairs
equal to neither orientation of (v1, v2). -/
def remove_edge {T : Type} (g : UndirectedSparseGraph T) (v1 v2 : Nat) :
    UndirectedSparseGraph T :=
  { g with edges := g.edges.filter (fun x => x != (v1, v2) && x != (v2, v1)) }

/-- Translation of `UndirectedSparseGraph::get_vertex_data`. -/
def get_vertex_data {T : Type} (g : UndirectedSparseGraph T) (vertex_id : Nat) :
    Option T :=
  (g.vertices.find? (fun x => x.1 == vertex_id)).map (fun x => x.2)

/-- Translation of `UndirectedSparseGraph::set_vertex_data`: the source
calls `.unwrap()` on the lookup, which panics (`none`) when the id does
not resolve. -/
def set_vertex_data {T : Type} (g : UndirectedSparseGraph T) (vertex_id : Nat)
    (data : T) : Option (UndirectedSparseGraph T) :=
  match listPosition (fun x => x.1 == vertex_id) g.vertices with
  | none => none
  | some pos => some { g with vertices := setData g.vertices pos data }

/-- Translation of `UndirectedSparseGraph::is_adjacent`: membership of
either orientation in the edge list, with no liveness check. -/
def is_adjacent {T : Type} (g : UndirectedSparseGraph T) (v1 v2 : Nat) : Bool :=
  g.edges.contains (v1, v2) || g.edges.contains (v2, v1)

/-- Translation of `UndirectedSparseGraph::get_neighbors`. -/
def get_neighbors {T : Type} (g : UndirectedSparseGraph T) (vertex_id : Nat) :
    List Nat :=
  g.vertices.foldl
    (fun res x => if g.is_adjacent vertex_id x.1 then res ++ [x.1] else res) []

end UndirectedSparseGraph

/-- One contract call, as in the `Graph<T>` trait of `lib.rs`. -/
inductive Op (T : Type) where
  | addV : T → Op T
  | removeV : Nat → Op T
  | addE : Nat → Nat → Op T
  | removeE : Nat → Nat → Op T
  | setD : Nat → T → Op T
  deriving DecidableEq

/-- Apply one contract call to the dense engine; `none` is a panic.  The
second component lists the handle returned when the call is `add_vertex`. -/
def denseApply {T : Type} (g : UndirectedGraph T) :
    Op T → Option (UndirectedGraph T × List Nat)
  | .addV d => (g.add_vertex d).map (fun p => (p.1, [p.2]))
  | .removeV v => (g.remove_vertex v).map (fun h => (h, []))
  | .addE a b => (g.add_edge a b).map (fun h => (h, []))
  | .removeE a b => (g.remove_edge a b).map (fun h => (h, []))
  | .setD v d => some (g.set_vertex_data v d, [])

/-- Run a sequence of contract calls on the dense engine, collecting the
handles returned by the `add_vertex` calls; `none` is a panic. -/
def denseRunFrom {T : Type} (g : UndirectedGraph T) :
    List (Op T) → Option (UndirectedGraph T × List Nat)
  | [] => some (g, [])
  | op :: ops =>
    match denseApply g op with
    | none => none
    | some (g1, hs1) =>
      match denseRunFrom g1 ops with
      | none => none
      | some (g2, hs2) => some (g2, hs1 ++ hs2)

/-- Apply one contract call to the sparse engine; `none` is a panic
(`set_vertex_data` on a dead handle). -/
def sparseApply {T : Type} (g : UndirectedSparseGraph T) :
    Op T → Option (UndirectedSparseGraph T × List Nat)
  | .addV d => some ((g.add_vertex d).1, [(g.add_vertex d).2])
  | .removeV v => some (g.remove_vertex v, [])
  | .addE a b => some (g.add_edge a b, [])
  | .removeE a b => some (g.remove_edge a b, [])
  | .setD v d => (g.set_vertex_data v d).map (fun h => (h, []))

/-- Run a sequence of contract calls on the sparse engine, collecting the
handles returned by the `add_vertex` calls; `none` is a panic. -/
def sparseRunFrom {T : Type} (g : UndirectedSparseGraph T) :
    List (Op T) → Option (UndirectedSparseGraph T × List Nat)
  | [] => some (g, [])
  | op :: ops =>
    match sparseApply g op with
    | none => none
    | some (g1, hs1) =>
      match sparseRunFrom g1 ops with
      | none => none
      | some (g2, hs2) => some (g2, hs1 ++ hs2)

/-! Helper lemmas about the fallible vector operations. -/

theorem insertVec_length {α : Type} :
    ∀ (l : List α) (i : Nat) (a : α) (l' : List α),
      insertVec l i a = some l' → l'.length = l.length + 1
  | l, 0, a, l', h => by
      simp only [insertVec, Option.some.injEq] at h
      subst h; simp
  | [], _ + 1, a, l', h => by simp [insertVec] at h
  | x :: xs, n + 1, a, l', h => by
      simp only [insertVec, Option.map_eq_some'] at h
      obtain ⟨l'', h1, h2⟩ := h
      subst h2
      simp [insertVec_length xs n a l'' h1]

theorem removeVec_some {α : Type} :
    ∀ (l : List α) (i : Nat), i < l.length →
      ∃ l', removeVec l i = some l' ∧ l'.length + 1 = l.length
  | [], i, h => by simp at h
  | x :: xs, 0, _ => ⟨xs, rfl, by simp⟩
  | x :: xs, n + 1, h => by
      obtain ⟨l', h1, h2⟩ := removeVec_some xs n (by simpa using h)
      exact ⟨x :: l', by simp [removeVec, h1], by simpa using h2⟩

theorem setVec_some {α : Type} :
    ∀ (l : List α) (i : Nat) (a : α), i < l.length →
      setVec l i a = some (l.set i a)
  | [], i, a, h => by simp at h
  | x :: xs, 0, a, _ => rfl
  | x :: xs, n + 1, a, h => by
      simp only [setVec, List.set]
      rw [setVec_some xs n a (by simpa using h)]
      rfl

theorem setVec_eq_some {α : Type} :
    ∀ (l : List α) (i : Nat) (a : α) (l' : List α),
      setVec l i a = some l' → l' = l.set i a ∧ i < l.length
  | [], i, a, l', h => by simp [setVec] at h
  | x :: xs, 0, a, l', h => by
      simp only [setVec, Option.some.injEq] at h
      exact ⟨h.symm, by simp⟩
  | x :: xs, n + 1, a, l', h => by
      simp only [setVec, Option.map_eq_some'] at h
      obtain ⟨l'', h1, h2⟩ := h
      obtain ⟨h3, h4⟩ := setVec_eq_some xs n a l'' h1
      subst h2; subst h3
      exact ⟨by simp [List.set], by simpa using h4⟩

theorem listPosition_lt_length {α : Type} {p : α → Bool} :
    ∀ {l : List α} {i : Nat}, listPosition p l = some i → i < l.length := by
  intro l
  induction l with
  | nil => intro i h; simp [listPosition] at h
  | cons x xs ih =>
      intro i h
      simp only [listPosition] at h
      by_cases hp : p x
      · simp only [hp, if_true, Option.some.injEq] at h
        subst h; simp
      · simp only [hp, if_neg, Bool.false_eq_true, if_false, Option.map_eq_some'] at h
        obtain ⟨j, h1, h2⟩ := h
        have := ih h1
        simp only [List.length_cons]
        omega

theorem listPosition_get {α : Type} {p : α → Bool} :
    ∀ {l : List α} {i : Nat}, listPosition p l = some i →
      ∃ x, l[i]? = some x ∧ p x = true := by
  intro l
  induction l with
  | nil => intro i h; simp [listPosition] at h
  | cons x xs ih =>
      intro i h
      simp only [listPosition] at h
      by_cases hp : p x
      · simp only [hp, if_true, Option.some.injEq] at h
        exact ⟨x, by simp [h.symm], hp⟩
      · simp only [hp, Bool.false_eq_true, if_false, Option.map_eq_some'] at h
        obtain ⟨j, h1, h2⟩ := h
        obtain ⟨y, hy1, hy2⟩ := ih h1
        exact ⟨y, by simpa [h2.symm] using hy1, hy2⟩

theorem listPosition_eq_none {α : Type} {p : α → Bool} :
    ∀ {l : List α}, listPosition p l = none ↔ ∀ x ∈ l, p x = false := by
  intro l
  induction l with
  | nil => simp [listPosition]
  | cons x xs ih =>
      by_cases hp : p x
      · simp [listPosition, hp]
      · simp only [listPosition, hp, Bool.false_eq_true, if_false,
          Option.map_eq_none', List.mem_cons]
        constructor
        · intro h y hy
          rcases hy with hy | hy
          · subst hy; simpa using hp
          · exact ih.mp h y hy
        · intro h
          exact ih.mpr (fun y hy => h y (Or.inr hy))

theorem setData_map_fst {T : Type} :
    ∀ (l : List (Nat × T)) (i : Nat) (d : T),
      (setData l i d).map Prod.fst = l.map Prod.fst
  | [], _, _ => rfl
  | x :: xs, 0, d => by simp [setData]
  | x :: xs, n + 1, d => by simp [setData, setData_map_fst xs n d]

theorem mapEraseIdx {α β : Type} (f : α → β) :
    ∀ (l : List α) (i : Nat), (l.eraseIdx i).map f = (l.map f).eraseIdx i
  | [], _ => rfl
  | x :: xs, 0 => by simp [List.eraseIdx]
  | x :: xs, n + 1 => by simp [List.eraseIdx, mapEraseIdx f xs n]

theorem not_mem_eraseIdx_of_nodup :
    ∀ (l : List Nat) (i : Nat) (v : Nat), l.Nodup → l[i]? = some v →
      v ∉ l.eraseIdx i
  | [], i, v, _, h => by simp at h
  | x :: xs, 0, v, hnd, h => by
      simp only [List.getElem?_cons_zero, Option.some.injEq] at h
      subst h
      simpa [List.eraseIdx] using (List.nodup_cons.mp hnd).1
  | x :: xs, n + 1, v, hnd, h => by
      simp only [List.getElem?_cons_succ] at h
      have hnd' := List.nodup_cons.mp hnd
      have ih := not_mem_eraseIdx_of_nodup xs n v hnd'.2 h
      simp only [List.eraseIdx, List.mem_cons]
      rintro (rfl | hmem)
      · obtain ⟨hlt, hv⟩ := List.getElem?_eq_some.mp h
        exact hnd'.1 (hv ▸ List.getElem_mem hlt)
      · exact ih hmem

/-! Arithmetic facts about the triangular packing offsets. -/

theorem tri_row_mod_two (V x : Nat) (hx : x + 1 ≤ V * 2) :
    (V * 2 - x - 1) * x % 2 = 0 := by
  rcases Nat.mod_two_eq_zero_or_one x with h | h
  · rw [Nat.mul_mod, h, Nat.mul_zero, Nat.zero_mod]
  · have h2 : (V * 2 - x - 1) % 2 = 0 := by omega
    rw [Nat.mul_mod, h2, Nat.zero_mul, Nat.zero_mod]

theorem tri_total_mod_two (V : Nat) : V * (V + 1) % 2 = 0 := by
  rcases Nat.mod_two_eq_zero_or_one V with h | h
  · rw [Nat.mul_mod, h, Nat.zero_mul, Nat.zero_mod]
  · have h2 : (V + 1) % 2 = 0 := by omega
    rw [Nat.mul_mod, h2, Nat.mul_zero, Nat.zero_mod]

theorem packed_core (V x y : Nat) (hx : x ≤ y) (hy : y < V) :
    (V * 2 - x - 1) * x + 2 * y < V * (V + 1) := by
  have h1 : x ≤ V * 2 := by omega
  have h2 : 1 ≤ V * 2 - x := by omega
  zify [h1, h2]
  have hx' : (x : ℤ) ≤ y := by exact_mod_cast hx
  have hy' : (y : ℤ) < V := by exact_mod_cast hy
  nlinarith [mul_nonneg (show (0:ℤ) ≤ (V:ℤ) - x - 1 by linarith)
    (show (0:ℤ) ≤ (V:ℤ) - x by linarith)]

theorem packed_lt (V x y : Nat) (hx : x ≤ y) (hy : y < V) :
    (V * 2 - x - 1) * x / 2 + y < V * (V + 1) / 2 := by
  have hcore := packed_core V x y hx hy
  have hpar := tri_row_mod_two V x (by omega)
  have hpar2 := tri_total_mod_two V
  omega

theorem packed_core_low (V i pos : Nat) (hi : i < pos) (hp : pos < V) :
    (V * 2 - i - 1) * i + 2 * pos + 2 * (V - 1 - i) < V * (V + 1) := by
  have h1 : i ≤ V * 2 := by omega
  have h2 : 1 ≤ V * 2 - i := by omega
  have h3 : i ≤ V - 1 := by omega
  have h4 : 1 ≤ V := by omega
  zify [h1, h2, h3, h4]
  have hi' : (i : ℤ) < pos := by exact_mod_cast hi
  have hp' : (pos : ℤ) < V := by exact_mod_cast hp
  nlinarith [mul_nonneg (show (0:ℤ) ≤ (V:ℤ) - i - 2 by linarith)
    (show (0:ℤ) ≤ (V:ℤ) - i - 1 by linarith)]

/-- The packed offset of any in-range cell is below the packed size
V(V+1)/2. -/
theorem index_lt {T : Type} (g : UndirectedGraph T) (x y : Nat)
    (hx : x < g.vertices.length) (hy : y < g.vertices.length) :
    g.index_vector_with_coords x y <
      g.vertices.length * (g.vertices.length + 1) / 2 := by
  unfold UndirectedGraph.index_vector_with_coords
  split
  · exact packed_lt _ x y (by assumption) hy
  · exact packed_lt _ y x (by omega) hx

/-- Slack bound used by `remove_vertex`: removing the cells of row `pos`
from the last column downwards always stays in range. -/
theorem index_add_lt {T : Type} (g : UndirectedGraph T) (pos i : Nat)
    (hp : pos < g.vertices.length) (hi : i < g.vertices.length) :
    g.index_vector_with_coords pos i + (g.vertices.length - 1 - i) <
      g.vertices.length * (g.vertices.length + 1) / 2 := by
  unfold UndirectedGraph.index_vector_with_coords
  split
  · have hcore := packed_core g.vertices.length pos (g.vertices.length - 1)
      (by omega) (by omega)
    have hpar := tri_row_mod_two g.vertices.length pos (by omega)
    have hpar2 := tri_total_mod_two g.vertices.length
    omega
  · have hip : i < pos := by omega
    have hcore := packed_core_low g.vertices.length i pos hip hp
    have hpar := tri_row_mod_two g.vertices.length i (by omega)
    have hpar2 := tri_total_mod_two g.vertices.length
    omega

/-- The packed offset is symmetric in its two coordinates. -/
theorem index_symm {T : Type} (g : UndirectedGraph T) (x y : Nat) :
    g.index_vector_with_coords x y = g.index_vector_with_coords y x := by
  unfold UndirectedGraph.index_vector_with_coords
  rcases Nat.lt_trichotomy x y with h | h | h
  · rw [if_pos (Nat.le_of_lt h), if_neg (Nat.not_le_of_lt h)]
  · subst h; rfl
  · rw [if_neg (Nat.not_le_of_lt h), if_pos (Nat.le_of_lt h)]

/-! Claim theorems. -/

/-- Claim C9: in both engines and in every state, `is_adjacent(a, b)`
equals `is_adjacent(b, a)` for all handles a and b, live or dead (for the
dense engine the two calls return the same `Option Bool`, so they also
agree on panics). -/
theorem claim9_is_adjacent_symm {T : Type} (g : UndirectedGraph T)
    (s : UndirectedSparseGraph T) (a b : Nat) :
    g.is_adjacent a b = g.is_adjacent b a ∧
    s.is_adjacent a b = s.is_adjacent b a := by
  constructor
  · unfold UndirectedGraph.is_adjacent
    cases h1 : g.get_index_from_id a <;> cases h2 : g.get_index_from_id b <;> simp
    rw [index_symm]
  · unfold UndirectedSparseGraph.is_adjacent
    exact Bool.or_comm _ _

/-- Claim C1 is violated by the dense engine: four `add_vertex` calls on a
fresh dense graph succeed, but the fifth `add_vertex` reaches
`Vec::insert` at offset `size * size = 16` while the matrix holds only 14
cells, so the call panics (`none`) instead of always succeeding. -/
theorem claim1_fifth_add_vertex_panics :
    denseRunFrom (UndirectedGraph.new Nat) [.addV 0, .addV 1, .addV 2, .addV 3] =
      some (⟨[(0, 0), (1, 1), (2, 2), (3, 3)],
        [false, false, false, false, false, false, false, false, false, false], 4⟩,
        [0, 1, 2, 3]) ∧
    denseRunFrom (UndirectedGraph.new Nat)
      [.addV 0, .addV 1, .addV 2, .addV 3, .addV 4] = none := by
  exact ⟨rfl, rfl⟩

/-- Claim C2 is violated: handles 0 and 1 are live and adjacent in the
dense engine, and the next `add_vertex` inserts the new flags at the wrong
offsets, so `is_adjacent(0, 1)` flips from `true` to `false`. -/
theorem claim2_add_vertex_breaks_adjacency :
    (denseRunFrom (UndirectedGraph.new Nat) [.addV 10, .addV 11, .addE 0 1]).map
        (fun p => p.1.is_adjacent 0 1) = some (some true) ∧
    (denseRunFrom (UndirectedGraph.new Nat)
        [.addV 10, .addV 11, .addE 0 1, .addV 12]).map
        (fun p => p.1.is_adjacent 0 1) = some (some false) := by
  exact ⟨rfl, rfl⟩

/-- Claim C3 is violated: the single contract call `add_edge(0, 1)` on
fresh instances makes `is_adjacent(0, 1)` report `false` on the dense
engine (no-op, both handles dead) but `true` on the sparse engine (the
pair is pushed without a liveness check). -/
theorem claim3_engines_diverge :
    (denseRunFrom (UndirectedGraph.new Nat) [.addE 0 1]).map
        (fun p => p.1.is_adjacent 0 1) = some (some false) ∧
    (sparseRunFrom (UndirectedSparseGraph.new Nat) [.addE 0 1]).map
        (fun p => p.1.is_adjacent 0 1) = some true := by
  exact ⟨rfl, rfl⟩

/-- Claim C4 is violated by the sparse engine: `set_vertex_data` on a dead
handle calls `.unwrap()` on a failed lookup and panics (`none`), while the
dense engine is a genuine no-op on the same input. -/
theorem claim4_sparse_set_vertex_data_panics :
    (UndirectedSparseGraph.new Nat).set_vertex_data 0 5 = none ∧
    (UndirectedGraph.new Nat).set_vertex_data 0 5 = UndirectedGraph.new Nat := by
  exact ⟨rfl, rfl⟩

/-- Claim C6 is violated by the sparse engine: after `add_edge(0, 1)` on a
fresh instance, neither handle is live (`get_vertex_data` is `none` for
both) yet `is_adjacent(0, 1)` returns `true`. -/
theorem claim6_sparse_adjacent_dead_handles :
    ((UndirectedSparseGraph.new Nat).add_edge 0 1).get_vertex_data 0 = none ∧
    ((UndirectedSparseGraph.new Nat).add_edge 0 1).get_vertex_data 1 = none ∧
    ((UndirectedSparseGraph.new Nat).add_edge 0 1).is_adjacent 0 1 = true := by
  exact ⟨rfl, rfl, rfl⟩

/-- Claim C5 as stated is false: on the sparse engine, `add_edge(0, 1)`
with handle 0 not live is not a no-op — the state changes. -/
theorem claim5_counterexample :
    (UndirectedSparseGraph.new Nat).get_vertex_data 0 = none ∧
    (UndirectedSparseGraph.new Nat).add_edge 0 1 ≠ UndirectedSparseGraph.new Nat := by
  exact ⟨rfl, by decide⟩

/-- Claim C8 as stated is false: on the sparse engine, `remove_vertex(0)`
with handle 0 not live is not a no-op when an edge mentions 0 — the edge
list changes. -/
theorem claim8_counterexample :
    ((UndirectedSparseGraph.new Nat).add_edge 0 1).get_vertex_data 0 = none ∧
    ((UndirectedSparseGraph.new Nat).add_edge 0 1).remove_vertex 0 ≠
      (UndirectedSparseGraph.new Nat).add_edge 0 1 := by
  exact ⟨rfl, by decide⟩

/-! Helper lemmas about edge-list membership and about mutating the dense
packed matrix. -/

theorem contains_iff_mem (l : List (Nat × Nat)) (p : Nat × Nat) :
    l.contains p = true ↔ p ∈ l := by
  unfold List.contains
  exact List.elem_iff

theorem contains_eq_false_iff (l : List (Nat × Nat)) (p : Nat × Nat) :
    l.contains p = false ↔ p ∉ l := by
  rw [← contains_iff_mem]
  cases l.contains p <;> simp

/-- Reading adjacency in a dense graph whose edge vector was replaced:
the handle lookups and the packed offset only depend on `vertices`. -/
theorem is_adjacent_edges_set {T : Type} (g : UndirectedGraph T) (es : List Bool)
    (a b p1 p2 : Nat) (hA : g.get_index_from_id a = some p1)
    (hB : g.get_index_from_id b = some p2) :
    ({ g with edges := es } : UndirectedGraph T).is_adjacent a b =
      es[g.index_vector_with_coords p1 p2]? := by
  unfold UndirectedGraph.is_adjacent
  rw [show ({ g with edges := es } : UndirectedGraph T).get_index_from_id a =
      some p1 from hA,
    show ({ g with edges := es } : UndirectedGraph T).get_index_from_id b =
      some p2 from hB]
  rfl

/-- Handle lookup in a dense graph ignores the edge vector. -/
theorem get_index_edges_set {T : Type} (g : UndirectedGraph T) (es : List Bool)
    (a : Nat) :
    ({ g with edges := es } : UndirectedGraph T).get_index_from_id a =
      g.get_index_from_id a := rfl

/-- The packed offset in a dense graph ignores the edge vector. -/
theorem index_edges_set {T : Type} (g : UndirectedGraph T) (es : List Bool)
    (x y : Nat) :
    ({ g with edges := es } : UndirectedGraph T).index_vector_with_coords x y =
      g.index_vector_with_coords x y := rfl

theorem sparse_add_edge_adjacent {T : Type} (s : UndirectedSparseGraph T)
    (a b : Nat) : (s.add_edge a b).is_adjacent a b = true := by
  unfold UndirectedSparseGraph.is_adjacent UndirectedSparseGraph.add_edge
  have c1 : (s.edges ++ [(a, b)]).contains (a, b) = true := by
    rw [contains_iff_mem]; simp
  rw [c1, Bool.true_or]

theorem sparse_remove_edge_not_adjacent {T : Type} (s : UndirectedSparseGraph T)
    (a b : Nat) : (s.remove_edge a b).is_adjacent a b = false := by
  unfold UndirectedSparseGraph.is_adjacent UndirectedSparseGraph.remove_edge
  have c1 : (s.edges.filter (fun x => x != (a, b) && x != (b, a))).contains
      (a, b) = false := by
    rw [contains_eq_false_iff]
    intro hmem
    have h := (List.mem_filter.mp hmem).2
    simp at h
  have c2 : (s.edges.filter (fun x => x != (a, b) && x != (b, a))).contains
      (b, a) = false := by
    rw [contains_eq_false_iff]
    intro hmem
    have h := (List.mem_filter.mp hmem).2
    simp at h
  rw [c1, c2, Bool.or_self]

/-- Claim C5 (amended): the dense engine's `add_edge` is a no-op when
either handle is not live; the sparse engine's `add_edge` appends the pair
unconditionally, even when a handle is not live; and when both handles are
live both engines record the undirected adjacency (self-loops included,
since the statement allows h1 = h2). -/
theorem claim5_amended {T : Type} (g : UndirectedGraph T)
    (s : UndirectedSparseGraph T) (h1 h2 p1 p2 : Nat) :
    ((g.get_index_from_id h1 = none ∨ g.get_index_from_id h2 = none) →
      g.add_edge h1 h2 = some g) ∧
    ((s.add_edge h1 h2).edges = s.edges ++ [(h1, h2)]) ∧
    (g.invariant → g.get_index_from_id h1 = some p1 →
      g.get_index_from_id h2 = some p2 →
      ∃ g', g.add_edge h1 h2 = some g' ∧ g'.is_adjacent h1 h2 = some true) ∧
    (s.add_edge h1 h2).is_adjacent h1 h2 = true := by
  refine ⟨?_, rfl, ?_, sparse_add_edge_adjacent s h1 h2⟩
  · intro hd
    unfold UndirectedGraph.add_edge
    rcases hd with hd | hd
    · rw [hd]
    · cases hA : g.get_index_from_id h1
      · rfl
      · rw [hd]
  · intro hInv hA hB
    obtain ⟨hlen, -, -⟩ := hInv
    have hp1 : p1 < g.vertices.length := listPosition_lt_length hA
    have hp2 : p2 < g.vertices.length := listPosition_lt_length hB
    have hidx : g.index_vector_with_coords p1 p2 < g.edges.length := by
      rw [hlen]; exact index_lt g p1 p2 hp1 hp2
    refine ⟨{ g with edges := g.edges.set (g.index_vector_with_coords p1 p2) true }, ?_, ?_⟩
    · simp only [UndirectedGraph.add_edge, hA, hB]
      rw [setVec_some _ _ _ hidx]
      rfl
    · rw [is_adjacent_edges_set g _ h1 h2 p1 p2 hA hB]
      simp [List.getElem?_set_self, hidx]

/-- Witness for the amended claim C5 at concrete inputs: a dead-handle
`add_edge` on the dense engine is a no-op, the sparse engine appends the
pair, and a live-live `add_edge` makes the pair adjacent in both engines. -/
theorem claim5_amended_witness :
    ((⟨[(0, 5), (1, 6)], [false, false, false], 2⟩ : UndirectedGraph Nat).add_edge 7 1 =
      some ⟨[(0, 5), (1, 6)], [false, false, false], 2⟩) ∧
    ((⟨[(0, 5), (1, 6)], [], 2⟩ : UndirectedSparseGraph Nat).add_edge 0 1).edges =
      [(0, 1)] ∧
    (∃ g', (⟨[(0, 5), (1, 6)], [false, false, false], 2⟩ :
        UndirectedGraph Nat).add_edge 0 1 = some g' ∧
      g'.is_adjacent 0 1 = some true) ∧
    ((⟨[(0, 5), (1, 6)], [], 2⟩ : UndirectedSparseGraph Nat).add_edge 0 1).is_adjacent
      0 1 = true := by
  refine ⟨(claim5_amended (⟨[(0, 5), (1, 6)], [false, false, false], 2⟩ :
      UndirectedGraph Nat) (⟨[(0, 5), (1, 6)], [], 2⟩ : UndirectedSparseGraph Nat)
      7 1 0 0).1 (Or.inl rfl),
    (claim5_amended (⟨[(0, 5), (1, 6)], [false, false, false], 2⟩ :
      UndirectedGraph Nat) (⟨[(0, 5), (1, 6)], [], 2⟩ : UndirectedSparseGraph Nat)
      0 1 0 1).2.1,
    (claim5_amended (⟨[(0, 5), (1, 6)], [false, false, false], 2⟩ :
      UndirectedGraph Nat) (⟨[(0, 5), (1, 6)], [], 2⟩ : UndirectedSparseGraph Nat)
      0 1 0 1).2.2.1 (by decide) rfl rfl,
    (claim5_amended (⟨[(0, 5), (1, 6)], [false, false, false], 2⟩ :
      UndirectedGraph Nat) (⟨[(0, 5), (1, 6)], [], 2⟩ : UndirectedSparseGraph Nat)
      0 1 0 1).2.2.2⟩

/-- Claim C7: in both engines, for live handles a and b, `add_edge(a, b)`
makes `is_adjacent(a, b)` true, and an immediately following
`remove_edge(a, b)` makes it false again (the sparse `remove_edge` drops
every stored pair matching either orientation, so this holds even when
duplicates were present). -/
theorem claim7_add_then_remove_edge {T : Type} (g : UndirectedGraph T)
    (s : UndirectedSparseGraph T) (a b p1 p2 : Nat) (hInv : g.invariant)
    (ha : g.get_index_from_id a = some p1)
    (hb : g.get_index_from_id b = some p2)
    (_hsa : (s.get_vertex_data a).isSome) (_hsb : (s.get_vertex_data b).isSome) :
    (∃ g1, g.add_edge a b = some g1 ∧ g1.is_adjacent a b = some true ∧
      ∃ g2, g1.remove_edge a b = some g2 ∧ g2.is_adjacent a b = some false) ∧
    ((s.add_edge a b).is_adjacent a b = true ∧
      ((s.add_edge a b).remove_edge a b).is_adjacent a b = false) := by
  obtain ⟨hlen, -, -⟩ := hInv
  have hp1 : p1 < g.vertices.length := listPosition_lt_length ha
  have hp2 : p2 < g.vertices.length := listPosition_lt_length hb
  have hidx : g.index_vector_with_coords p1 p2 < g.edges.length := by
    rw [hlen]; exact index_lt g p1 p2 hp1 hp2
  refine ⟨⟨{ g with edges := g.edges.set (g.index_vector_with_coords p1 p2) true }, ?_, ?_, { g with edges := (g.edges.set (g.index_vector_with_coords p1 p2) true).set (g.index_vector_with_coords p1 p2) false }, ?_, ?_⟩, sparse_add_edge_adjacent s a b, sparse_remove_edge_not_adjacent (s.add_edge a b) a b⟩
  · simp only [UndirectedGraph.add_edge, ha, hb]
    rw [setVec_some _ _ _ hidx]
    rfl
  · rw [is_adjacent_edges_set g _ a b p1 p2 ha hb]
    simp [List.getElem?_set_self, hidx]
  · simp only [UndirectedGraph.remove_edge, get_index_edges_set, ha, hb,
      index_edges_set]
    rw [setVec_some _ _ _ (by simpa using hidx)]
    rfl
  · rw [is_adjacent_edges_set g _ a b p1 p2 ha hb]
    simp [List.getElem?_set_self, hidx]

/-- Witness for claim C7 at concrete inputs: two live vertices in each
engine, adding then removing the edge between them. -/
theorem claim7_witness :
    (∃ g1, (⟨[(0, 5), (1, 6)], [false, false, false], 2⟩ :
        UndirectedGraph Nat).add_edge 0 1 = some g1 ∧
      g1.is_adjacent 0 1 = some true ∧
      ∃ g2, g1.remove_edge 0 1 = some g2 ∧ g2.is_adjacent 0 1 = some false) ∧
    (((⟨[(0, 5), (1, 6)], [], 2⟩ : UndirectedSparseGraph Nat).add_edge 0 1).is_adjacent
        0 1 = true ∧
      (((⟨[(0, 5), (1, 6)], [], 2⟩ : UndirectedSparseGraph Nat).add_edge
        0 1).remove_edge 0 1).is_adjacent 0 1 = false) :=
  claim7_add_then_remove_edge
    (⟨[(0, 5), (1, 6)], [false, false, false], 2⟩ : UndirectedGraph Nat)
    (⟨[(0, 5), (1, 6)], [], 2⟩ : UndirectedSparseGraph Nat) 0 1 0 1
    (by decide) rfl rfl (by decide) (by decide)

/-! Success of the dense `remove_vertex` edge-removal loop: the removal
offsets strictly decrease along the loop, so each `Vec::remove` is in
range. -/

theorem removeFold_ok {T : Type} (g : UndirectedGraph T) (pos : Nat) :
    ∀ (k : Nat) (es : List Bool),
      (∀ i, i < k → g.index_vector_with_coords pos i + (k - 1 - i) < es.length) →
      ∃ es', (List.range k).reverse.foldlM
          (fun l i => removeVec l (g.index_vector_with_coords pos i)) es =
            some es' ∧ es'.length + k = es.length := by
  intro k
  induction k with
  | zero => intro es _; exact ⟨es, by simp, by simp⟩
  | succ k ih =>
      intro es hbound
      have h1 : g.index_vector_with_coords pos k < es.length := by
        have := hbound k (by omega); omega
      obtain ⟨es1, he1, hlen1⟩ := removeVec_some es (g.index_vector_with_coords pos k) h1
      have h2 : ∀ i, i < k →
          g.index_vector_with_coords pos i + (k - 1 - i) < es1.length := by
        intro i hik
        have := hbound i (by omega)
        omega
      obtain ⟨es', he', hlen'⟩ := ih es1 h2
      refine ⟨es', ?_, by omega⟩
      rw [List.range_succ, List.reverse_append, List.reverse_singleton,
        List.singleton_append, List.foldlM_cons, he1]
      simpa using he'

/-- Success and shape of the dense `remove_vertex` on a live handle under
the structural invariant. -/
theorem dense_remove_vertex_live {T : Type} (g : UndirectedGraph T) (v pos : Nat)
    (hInv : g.invariant) (hpos : g.get_index_from_id v = some pos) :
    ∃ es', g.remove_vertex v = some ⟨g.vertices.eraseIdx pos, es', g.next_id⟩ := by
  obtain ⟨hlen, -, -⟩ := hInv
  have hp : pos < g.vertices.length := listPosition_lt_length hpos
  have hbound : ∀ i, i < g.vertices.length →
      g.index_vector_with_coords pos i + (g.vertices.length - 1 - i) <
        g.edges.length := by
    intro i hi
    rw [hlen]
    exact index_add_lt g pos i hp hi
  obtain ⟨es', he', -⟩ := removeFold_ok g pos g.vertices.length g.edges hbound
  refine ⟨es', ?_⟩
  simp only [UndirectedGraph.remove_vertex, hpos, he']

/-- Claim C8 (amended): on a non-live handle the dense engine's
`remove_vertex` is a strict no-op, while the sparse engine leaves the
vertex list unchanged but still filters the edge list, deleting any stored
pair that references the handle; on a live handle both engines remove the
vertex and every edge touching it, so that afterwards `get_vertex_data`
is absent and `is_adjacent` with any other handle is false. -/
theorem claim8_amended {T : Type} (g : UndirectedGraph T)
    (s : UndirectedSparseGraph T) (v : Nat) :
    (g.get_index_from_id v = none → g.remove_vertex v = some g) ∧
    (s.get_vertex_data v = none → (s.remove_vertex v).vertices = s.vertices) ∧
    ((s.remove_vertex v).edges =
      s.edges.filter (fun x => x.1 != v && x.2 != v)) ∧
    (g.invariant → ∀ pos, g.get_index_from_id v = some pos →
      ∃ g', g.remove_vertex v = some g' ∧ g'.get_vertex_data v = none ∧
        ∀ w, g'.is_adjacent v w = some false) ∧
    ((s.remove_vertex v).get_vertex_data v = none ∧
      ∀ w, (s.remove_vertex v).is_adjacent v w = false) := by
  refine ⟨?_, ?_, rfl, ?_, ?_, ?_⟩
  · intro h
    simp only [UndirectedGraph.remove_vertex, h]
  · intro h
    have hall : ∀ x ∈ s.vertices, (fun x => x.1 != v) x = true := by
      intro x hx
      have hfind : s.vertices.find? (fun x => x.1 == v) = none := by
        have := Option.map_eq_none'.mp h
        exact this
      have := List.find?_eq_none.mp hfind x hx
      simpa using this
    exact List.filter_eq_self.mpr hall
  · intro hInv pos hpos
    obtain ⟨es', he'⟩ := dense_remove_vertex_live g v pos hInv hpos
    obtain ⟨-, hnd, -⟩ := hInv
    obtain ⟨x0, hx0, hx0v⟩ := listPosition_get hpos
    have hidv : (g.vertices.map Prod.fst)[pos]? = some v := by
      rw [List.getElem?_map, hx0]
      simpa using hx0v
    have hnotmem : v ∉ (g.vertices.map Prod.fst).eraseIdx pos :=
      not_mem_eraseIdx_of_nodup _ pos v hnd hidv
    have hnone : ∀ x ∈ g.vertices.eraseIdx pos, (x.1 == v) = false := by
      intro x hx
      have hx1 : x.1 ∈ (g.vertices.map Prod.fst).eraseIdx pos := by
        rw [← mapEraseIdx]
        exact List.mem_map_of_mem Prod.fst hx
      by_contra hc
      have : x.1 = v := by simpa using hc
      exact hnotmem (this ▸ hx1)
    refine ⟨⟨g.vertices.eraseIdx pos, es', g.next_id⟩, he', ?_, ?_⟩
    · unfold UndirectedGraph.get_vertex_data
      rw [Option.map_eq_none', List.find?_eq_none]
      intro x hx
      simpa using hnone x hx
    · intro w
      unfold UndirectedGraph.is_adjacent UndirectedGraph.get_index_from_id
      rw [listPosition_eq_none.mpr hnone]
  · unfold UndirectedSparseGraph.get_vertex_data UndirectedSparseGraph.remove_vertex
    rw [Option.map_eq_none', List.find?_eq_none]
    intro x hx
    have := (List.mem_filter.mp hx).2
    simp only [bne_iff_ne, ne_eq, decide_eq_true_eq] at this
    simpa using this
  · intro w
    unfold UndirectedSparseGraph.is_adjacent UndirectedSparseGraph.remove_vertex
    have c1 : ((s.edges.filter (fun x => x.1 != v && x.2 != v)).contains (v, w)) = false := by
      rw [contains_eq_false_iff]
      intro hmem
      have hp := (List.mem_filter.mp hmem).2
      simp at hp
    have c2 : ((s.edges.filter (fun x => x.1 != v && x.2 != v)).contains (w, v)) = false := by
      rw [contains_eq_false_iff]
      intro hmem
      have hp := (List.mem_filter.mp hmem).2
      simp at hp
    rw [c1, c2, Bool.or_self]

/-- Witness for the amended claim C8 at concrete inputs: a dead handle on
each engine (dense no-op; sparse keeps its vertex but loses the dangling
edge), and removal of a live vertex with a self-loop in each engine. -/
theorem claim8_amended_witness :
    (⟨[(0, 7)], [false], 1⟩ : UndirectedGraph Nat).remove_vertex 5 =
      some ⟨[(0, 7)], [false], 1⟩ ∧
    ((⟨[(0, 7)], [(0, 0)], 1⟩ : UndirectedSparseGraph Nat).remove_vertex 5).vertices =
      [(0, 7)] ∧
    (∃ g', (⟨[(0, 7)], [false], 1⟩ : UndirectedGraph Nat).remove_vertex 0 = some g' ∧
      g'.get_vertex_data 0 = none ∧ ∀ w, g'.is_adjacent 0 w = some false) ∧
    ((⟨[(0, 7)], [(0, 0)], 1⟩ : UndirectedSparseGraph Nat).remove_vertex 0).get_vertex_data 0 = none ∧
    ∀ w, ((⟨[(0, 7)], [(0, 0)], 1⟩ : UndirectedSparseGraph Nat).remove_vertex 0).is_adjacent 0 w = false := by
  refine ⟨(claim8_amended (⟨[(0, 7)], [false], 1⟩ : UndirectedGraph Nat)
      (⟨[(0, 7)], [(0, 0)], 1⟩ : UndirectedSparseGraph Nat) 5).1 rfl,
    (claim8_amended (⟨[(0, 7)], [false], 1⟩ : UndirectedGraph Nat)
      (⟨[(0, 7)], [(0, 0)], 1⟩ : UndirectedSparseGraph Nat) 5).2.1 rfl,
    (claim8_amended (⟨[(0, 7)], [false], 1⟩ : UndirectedGraph Nat)
      (⟨[(0, 7)], [(0, 0)], 1⟩ : UndirectedSparseGraph Nat) 0).2.2.2.1 (by decide) 0 rfl,
    (claim8_amended (⟨[(0, 7)], [false], 1⟩ : UndirectedGraph Nat)
      (⟨[(0, 7)], [(0, 0)], 1⟩ : UndirectedSparseGraph Nat) 0).2.2.2.2.1,
    (claim8_amended (⟨[(0, 7)], [false], 1⟩ : UndirectedGraph Nat)
      (⟨[(0, 7)], [(0, 0)], 1⟩ : UndirectedSparseGraph Nat) 0).2.2.2.2.2⟩

/-! Handle freshness: `next_id` never decreases, and only a successful
`add_vertex` emits a handle — the old `next_id`, bumping it by one. -/

theorem denseApply_next_id {T : Type} (g : UndirectedGraph T) (op : Op T)
    (g' : UndirectedGraph T) (out : List Nat)
    (h : denseApply g op = some (g', out)) :
    g.next_id ≤ g'.next_id ∧
      (out = [] ∨ (out = [g.next_id] ∧ g'.next_id = g.next_id + 1)) := by
  cases op with
  | addV d =>
      simp only [denseApply, UndirectedGraph.add_vertex] at h
      cases hf : (List.range (g.vertices.length + 1)).foldlM
          (fun es k => insertVec es (g.vertices.length * k) false) g.edges with
      | none => simp only [hf] at h; simp at h
      | some es =>
          simp only [hf, Option.map_some', Option.some.injEq, Prod.mk.injEq] at h
          obtain ⟨rfl, rfl⟩ := h
          exact ⟨Nat.le_succ _, Or.inr ⟨rfl, rfl⟩⟩
  | removeV v =>
      simp only [denseApply, UndirectedGraph.remove_vertex] at h
      cases hl : g.get_index_from_id v with
      | none =>
          simp only [hl, Option.map_some', Option.some.injEq, Prod.mk.injEq] at h
          obtain ⟨rfl, rfl⟩ := h
          simp
      | some pos =>
          simp only [hl] at h
          cases hf : (List.range g.vertices.length).reverse.foldlM
              (fun es k => removeVec es (g.index_vector_with_coords pos k))
              g.edges with
          | none => simp only [hf] at h; simp at h
          | some es =>
              simp only [hf, Option.map_some', Option.some.injEq,
                Prod.mk.injEq] at h
              obtain ⟨rfl, rfl⟩ := h
              simp
  | addE a b =>
      simp only [denseApply, UndirectedGraph.add_edge] at h
      cases h1 : g.get_index_from_id a with
      | none =>
          simp only [h1, Option.map_some', Option.some.injEq, Prod.mk.injEq] at h
          obtain ⟨rfl, rfl⟩ := h
          simp
      | some p1 =>
          simp only [h1] at h
          cases h2 : g.get_index_from_id b with
          | none =>
              simp only [h2, Option.map_some', Option.some.injEq,
                Prod.mk.injEq] at h
              obtain ⟨rfl, rfl⟩ := h
              simp
          | some p2 =>
              simp only [h2] at h
              cases hs : setVec g.edges (g.index_vector_with_coords p1 p2) true with
              | none => simp only [hs] at h; simp at h
              | some es =>
                  simp only [hs, Option.map_some', Option.map_map,
                    Option.some.injEq, Prod.mk.injEq] at h
                  obtain ⟨rfl, rfl⟩ := h
                  exact ⟨Nat.le_refl _, Or.inl rfl⟩
  | removeE a b =>
      simp only [denseApply, UndirectedGraph.remove_edge] at h
      cases h1 : g.get_index_from_id a with
      | none =>
          simp only [h1, Option.map_some', Option.some.injEq, Prod.mk.injEq] at h
          obtain ⟨rfl, rfl⟩ := h
          simp
      | some p1 =>
          simp only [h1] at h
          cases h2 : g.get_index_from_id b with
          | none =>
              simp only [h2, Option.map_some', Option.some.injEq,
                Prod.mk.injEq] at h
              obtain ⟨rfl, rfl⟩ := h
              simp
          | some p2 =>
              simp only [h2] at h
              cases hs : setVec g.edges (g.index_vector_with_coords p1 p2) false with
              | none => simp only [hs] at h; simp at h
              | some es =>
                  simp only [hs, Option.map_some', Option.map_map,
                    Option.some.injEq, Prod.mk.injEq] at h
                  obtain ⟨rfl, rfl⟩ := h
                  exact ⟨Nat.le_refl _, Or.inl rfl⟩
  | setD v d =>
      simp only [denseApply, UndirectedGraph.set_vertex_data,
        Option.some.injEq, Prod.mk.injEq] at h
      obtain ⟨h1, rfl⟩ := h
      cases hl : g.get_index_from_id v with
      | none => simp only [hl] at h1; rw [← h1]; simp
      | some pos => simp only [hl] at h1; rw [← h1]; simp

theorem sparseApply_next_id {T : Type} (g : UndirectedSparseGraph T) (op : Op T)
    (g' : UndirectedSparseGraph T) (out : List Nat)
    (h : sparseApply g op = some (g', out)) :
    g.next_id ≤ g'.next_id ∧
      (out = [] ∨ (out = [g.next_id] ∧ g'.next_id = g.next_id + 1)) := by
  cases op with
  | addV d =>
      simp only [sparseApply, UndirectedSparseGraph.add_vertex,
        Option.some.injEq, Prod.mk.injEq] at h
      obtain ⟨rfl, rfl⟩ := h
      simp
  | removeV v =>
      simp only [sparseApply, Option.some.injEq, Prod.mk.injEq] at h
      obtain ⟨rfl, rfl⟩ := h
      simp [UndirectedSparseGraph.remove_vertex]
  | addE a b =>
      simp only [sparseApply, Option.some.injEq, Prod.mk.injEq] at h
      obtain ⟨rfl, rfl⟩ := h
      simp [UndirectedSparseGraph.add_edge]
  | removeE a b =>
      simp only [sparseApply, Option.some.injEq, Prod.mk.injEq] at h
      obtain ⟨rfl, rfl⟩ := h
      simp [UndirectedSparseGraph.remove_edge]
  | setD v d =>
      simp only [sparseApply, UndirectedSparseGraph.set_vertex_data] at h
      cases hl : listPosition (fun x => x.1 == v) g.vertices with
      | none => simp only [hl] at h; simp at h
      | some pos =>
          simp only [hl, Option.map_some', Option.some.injEq,
            Prod.mk.injEq] at h
          obtain ⟨rfl, rfl⟩ := h
          simp

theorem denseRun_handles {T : Type} :
    ∀ (ops : List (Op T)) (g g' : UndirectedGraph T) (hs : List Nat),
      denseRunFrom g ops = some (g', hs) →
      g.next_id ≤ g'.next_id ∧ hs.Pairwise (· < ·) ∧
        ∀ x ∈ hs, g.next_id ≤ x ∧ x < g'.next_id := by
  intro ops
  induction ops with
  | nil =>
      intro g g' hs h
      simp only [denseRunFrom, Option.some.injEq, Prod.mk.injEq] at h
      obtain ⟨rfl, rfl⟩ := h
      exact ⟨Nat.le_refl _, by simp, by simp⟩
  | cons op ops ih =>
      intro g g' hs h
      simp only [denseRunFrom] at h
      cases ha : denseApply g op with
      | none => simp only [ha] at h; simp at h
      | some p =>
          obtain ⟨g1, hs1⟩ := p
          simp only [ha] at h
          cases hr : denseRunFrom g1 ops with
          | none => simp only [hr] at h; simp at h
          | some q =>
              obtain ⟨g2, hs2⟩ := q
              simp only [hr, Option.some.injEq, Prod.mk.injEq] at h
              obtain ⟨rfl, rfl⟩ := h
              obtain ⟨hmono1, hout⟩ := denseApply_next_id g op g1 hs1 ha
              obtain ⟨hmono2, hpw2, hbound2⟩ := ih g1 g2 hs2 hr
              refine ⟨Nat.le_trans hmono1 hmono2, ?_, ?_⟩
              · rw [List.pairwise_append]
                rcases hout with rfl | ⟨rfl, hnid⟩
                · exact ⟨by simp, hpw2, by simp⟩
                · refine ⟨by simp, hpw2, ?_⟩
                  intro x hx y hy
                  have hxe : x = g.next_id := by simpa using hx
                  have := (hbound2 y hy).1
                  omega
              · intro x hx
                rcases List.mem_append.mp hx with hx | hx
                · rcases hout with rfl | ⟨rfl, hnid⟩
                  · simp at hx
                  · have hxe : x = g.next_id := by simpa using hx
                    omega
                · have := hbound2 x hx
                  omega

theorem sparseRun_handles {T : Type} :
    ∀ (ops : List (Op T)) (g g' : UndirectedSparseGraph T) (hs : List Nat),
      sparseRunFrom g ops = some (g', hs) →
      g.next_id ≤ g'.next_id ∧ hs.Pairwise (· < ·) ∧
        ∀ x ∈ hs, g.next_id ≤ x ∧ x < g'.next_id := by
  intro ops
  induction ops with
  | nil =>
      intro g g' hs h
      simp only [sparseRunFrom, Option.some.injEq, Prod.mk.injEq] at h
      obtain ⟨rfl, rfl⟩ := h
      exact ⟨Nat.le_refl _, by simp, by simp⟩
  | cons op ops ih =>
      intro g g' hs h
      simp only [sparseRunFrom] at h
      cases ha : sparseApply g op with
      | none => simp only [ha] at h; simp at h
      | some p =>
          obtain ⟨g1, hs1⟩ := p
          simp only [ha] at h
          cases hr : sparseRunFrom g1 ops with
          | none => simp only [hr] at h; simp at h
          | some q =>
              obtain ⟨g2, hs2⟩ := q
              simp only [hr, Option.some.injEq, Prod.mk.injEq] at h
              obtain ⟨rfl, rfl⟩ := h
              obtain ⟨hmono1, hout⟩ := sparseApply_next_id g op g1 hs1 ha
              obtain ⟨hmono2, hpw2, hbound2⟩ := ih g1 g2 hs2 hr
              refine ⟨Nat.le_trans hmono1 hmono2, ?_, ?_⟩
              · rw [List.pairwise_append]
                rcases hout with rfl | ⟨rfl, hnid⟩
                · exact ⟨by simp, hpw2, by simp⟩
                · refine ⟨by simp, hpw2, ?_⟩
                  intro x hx y hy
                  have hxe : x = g.next_id := by simpa using hx
                  have := (hbound2 y hy).1
                  omega
              · intro x hx
                rcases List.mem_append.mp hx with hx | hx
                · rcases hout with rfl | ⟨rfl, hnid⟩
                  · simp at hx
                  · have hxe : x = g.next_id := by simpa using hx
                    omega
                · have := hbound2 x hx
                  omega

/-- Claim C10: in each engine instance separately, for every sequence of
contract operations run from a fresh instance, the handles returned by the
`add_vertex` calls are strictly increasing (hence pairwise distinct and
never reused, even after the corresponding vertex was removed).  The two
engines are quantified over independent sequences `opsd` and `opss`, so each
conjunct settles its engine on every sequence that engine completes,
regardless of whether the other engine panics on it. -/
theorem claim10_handles_strictly_increase {T : Type}
    (opsd opss : List (Op T)) (gd : UndirectedGraph T) (hd : List Nat)
    (gs : UndirectedSparseGraph T) (hsp : List Nat) :
    (denseRunFrom (UndirectedGraph.new T) opsd = some (gd, hd) →
      hd.Pairwise (· < ·)) ∧
    (sparseRunFrom (UndirectedSparseGraph.new T) opss = some (gs, hsp) →
      hsp.Pairwise (· < ·)) :=
  ⟨fun h1 => (denseRun_handles opsd _ gd hd h1).2.1,
   fun h2 => (sparseRun_handles opss _ gs hsp h2).2.1⟩

/-- Witness for claim C10 at concrete per-engine inputs that the other
engine cannot even run: the dense sequence ends with `set_vertex_data` on
a dead handle (a no-op for dense, a panic for sparse) and yields handles
0, 1, 2; the sparse sequence is five `add_vertex` calls (the dense engine
panics on the fifth) and yields handles 0, 1, 2, 3, 4 — each strictly
increasing. -/
theorem claim10_witness :
    ([0, 1, 2] : List Nat).Pairwise (· < ·) ∧
      ([0, 1, 2, 3, 4] : List Nat).Pairwise (· < ·) :=
  have h := claim10_handles_strictly_increase
    [Op.addV 3, Op.addV 4, Op.removeV 0, Op.addV 5, Op.setD 9 0]
    [Op.addV 0, Op.addV 0, Op.addV 0, Op.addV 0, Op.addV 0]
    (⟨[(1, 4), (2, 5)], [false, false, false], 3⟩ : UndirectedGraph Nat) [0, 1, 2]
    (⟨[(0, 0), (1, 0), (2, 0), (3, 0), (4, 0)], [], 5⟩ : UndirectedSparseGraph Nat)
    [0, 1, 2, 3, 4]
  ⟨h.1 (by decide), h.2 (by decide)⟩

/-! Preservation of the dense structural invariant along every successful
run, so the `invariant` hypotheses above hold in every reachable state. -/

theorem removeVec_length {α : Type} :
    ∀ (l : List α) (i : Nat) (l' : List α),
      removeVec l i = some l' → l'.length + 1 = l.length
  | [], i, l', h => by simp [removeVec] at h
  | x :: xs, 0, l', h => by
      simp only [removeVec, Option.some.injEq] at h
      subst h; simp
  | x :: xs, n + 1, l', h => by
      simp only [removeVec, Option.map_eq_some'] at h
      obtain ⟨l'', h1, h2⟩ := h
      subst h2
      have := removeVec_length xs n l'' h1
      simp only [List.length_cons]
      omega

theorem insertFold_length (sz : Nat) :
    ∀ (xs : List Nat) (es es' : List Bool),
      xs.foldlM (fun l i => insertVec l (sz * i) (false : Bool)) es = some es' →
      es'.length = es.length + xs.length := by
  intro xs
  induction xs with
  | nil =>
      intro es es' h
      simp only [List.foldlM_nil] at h
      cases h; simp
  | cons x xs ih =>
      intro es es' h
      rw [List.foldlM_cons] at h
      cases h1 : insertVec es (sz * x) false with
      | none => rw [h1] at h; simp at h
      | some es1 =>
          rw [h1] at h
          simp only [Option.bind_eq_bind, Option.some_bind] at h
          have hlen1 := insertVec_length es (sz * x) false es1 h1
          have := ih es1 es' (by simpa using h)
          simp only [List.length_cons]
          omega

theorem removeFold_length {T : Type} (g : UndirectedGraph T) (pos : Nat) :
    ∀ (xs : List Nat) (es es' : List Bool),
      xs.foldlM (fun l i => removeVec l (g.index_vector_with_coords pos i)) es =
        some es' → es'.length + xs.length = es.length := by
  intro xs
  induction xs with
  | nil =>
      intro es es' h
      simp only [List.foldlM_nil] at h
      cases h; simp
  | cons x xs ih =>
      intro es es' h
      rw [List.foldlM_cons] at h
      cases h1 : removeVec es (g.index_vector_with_coords pos x) with
      | none => rw [h1] at h; simp at h
      | some es1 =>
          rw [h1] at h
          simp only [Option.bind_eq_bind, Option.some_bind] at h
          have hlen1 := removeVec_length es (g.index_vector_with_coords pos x) es1 h1
          have := ih es1 es' (by simpa using h)
          simp only [List.length_cons]
          omega

theorem setData_length {T : Type} :
    ∀ (l : List (Nat × T)) (i : Nat) (d : T), (setData l i d).length = l.length
  | [], _, _ => rfl
  | x :: xs, 0, d => by simp [setData]
  | x :: xs, n + 1, d => by simp [setData, setData_length xs n d]

theorem denseApply_invariant {T : Type} (g : UndirectedGraph T) (op : Op T)
    (g' : UndirectedGraph T) (out : List Nat) (hInv : g.invariant)
    (h : denseApply g op = some (g', out)) : g'.invariant := by
  obtain ⟨hlen, hnd, hids⟩ := hInv
  cases op with
  | addV d =>
      simp only [denseApply, UndirectedGraph.add_vertex] at h
      cases hf : (List.range (g.vertices.length + 1)).foldlM
          (fun es k => insertVec es (g.vertices.length * k) false) g.edges with
      | none => simp only [hf] at h; simp at h
      | some es =>
          simp only [hf, Option.map_some', Option.some.injEq, Prod.mk.injEq] at h
          obtain ⟨rfl, rfl⟩ := h
          have hlen' := insertFold_length g.vertices.length _ _ _ hf
          refine ⟨?_, ?_, ?_⟩
          · simp only [List.length_append, List.length_singleton]
            rw [hlen', hlen]
            have hring : (g.vertices.length + 1) * (g.vertices.length + 1 + 1) =
                g.vertices.length * (g.vertices.length + 1) +
                  2 * (g.vertices.length + 1) := by ring
            have hpar := tri_total_mod_two g.vertices.length
            have hpar2 := tri_total_mod_two (g.vertices.length + 1)
            simp only [List.length_range]
            omega
          · simp only [List.map_append, List.map_cons, List.map_nil]
            rw [List.nodup_append]
            refine ⟨hnd, by simp, ?_⟩
            intro x hx
            have := hids x hx
            simp only [List.mem_singleton]
            omega
          · simp only [List.map_append, List.map_cons, List.map_nil]
            intro i hi
            rcases List.mem_append.mp hi with hi | hi
            · have := hids i hi; omega
            · simp only [List.mem_singleton] at hi
              omega
  | removeV v =>
      simp only [denseApply, UndirectedGraph.remove_vertex] at h
      cases hl : g.get_index_from_id v with
      | none =>
          simp only [hl, Option.map_some', Option.some.injEq, Prod.mk.injEq] at h
          obtain ⟨rfl, rfl⟩ := h
          exact ⟨hlen, hnd, hids⟩
      | some pos =>
          simp only [hl] at h
          cases hf : (List.range g.vertices.length).reverse.foldlM
              (fun es k => removeVec es (g.index_vector_with_coords pos k))
              g.edges with
          | none => simp only [hf] at h; simp at h
          | some es =>
              simp only [hf, Option.map_some', Option.some.injEq,
                Prod.mk.injEq] at h
              obtain ⟨rfl, rfl⟩ := h
              have hpos : pos < g.vertices.length := listPosition_lt_length hl
              have hlen' := removeFold_length g pos _ _ _ hf
              refine ⟨?_, ?_, ?_⟩
              · simp only [List.length_eraseIdx, hpos, if_true]
                simp only [List.length_reverse, List.length_range] at hlen'
                have hV1 : 1 ≤ g.vertices.length := by omega
                have hring : g.vertices.length * (g.vertices.length + 1) =
                    (g.vertices.length - 1) * g.vertices.length +
                      2 * g.vertices.length := by
                  cases g.vertices.length with
                  | zero => omega
                  | succ n => simp; ring
                have hpar := tri_total_mod_two g.vertices.length
                have hpar2 := tri_total_mod_two (g.vertices.length - 1)
                have hring2 : (g.vertices.length - 1) *
                    (g.vertices.length - 1 + 1) =
                      (g.vertices.length - 1) * g.vertices.length := by
                  congr 1
                  omega
                rw [hlen] at hlen'
                omega
              · rw [mapEraseIdx]
                exact (List.eraseIdx_sublist _ pos).nodup hnd
              · intro i hi
                rw [mapEraseIdx] at hi
                exact hids i (List.Sublist.mem hi (List.eraseIdx_sublist _ pos))
  | addE a b =>
      simp only [denseApply, UndirectedGraph.add_edge] at h
      cases h1 : g.get_index_from_id a with
      | none =>
          simp only [h1, Option.map_some', Option.some.injEq, Prod.mk.injEq] at h
          obtain ⟨rfl, rfl⟩ := h
          exact ⟨hlen, hnd, hids⟩
      | some p1 =>
          simp only [h1] at h
          cases h2 : g.get_index_from_id b with
          | none =>
              simp only [h2, Option.map_some', Option.some.injEq,
                Prod.mk.injEq] at h
              obtain ⟨rfl, rfl⟩ := h
              exact ⟨hlen, hnd, hids⟩
          | some p2 =>
              simp only [h2] at h
              cases hs : setVec g.edges (g.index_vector_with_coords p1 p2) true with
              | none => simp only [hs] at h; simp at h
              | some es =>
                  simp only [hs, Option.map_some', Option.map_map,
                    Option.some.injEq, Prod.mk.injEq] at h
                  obtain ⟨rfl, rfl⟩ := h
                  obtain ⟨rfl, -⟩ := setVec_eq_some _ _ _ _ hs
                  exact ⟨by simpa using hlen, hnd, hids⟩
  | removeE a b =>
      simp only [denseApply, UndirectedGraph.remove_edge] at h
      cases h1 : g.get_index_from_id a with
      | none =>
          simp only [h1, Option.map_some', Option.some.injEq, Prod.mk.injEq] at h
          obtain ⟨rfl, rfl⟩ := h
          exact ⟨hlen, hnd, hids⟩
      | some p1 =>
          simp only [h1] at h
          cases h2 : g.get_index_from_id b with
          | none =>
              simp only [h2, Option.map_some', Option.some.injEq,
                Prod.mk.injEq] at h
              obtain ⟨rfl, rfl⟩ := h
              exact ⟨hlen, hnd, hids⟩
          | some p2 =>
              simp only [h2] at h
              cases hs : setVec g.edges (g.index_vector_with_coords p1 p2) false with
              | none => simp only [hs] at h; simp at h
              | some es =>
                  simp only [hs, Option.map_some', Option.map_map,
                    Option.some.injEq, Prod.mk.injEq] at h
                  obtain ⟨rfl, rfl⟩ := h
                  obtain ⟨rfl, -⟩ := setVec_eq_some _ _ _ _ hs
                  exact ⟨by simpa using hlen, hnd, hids⟩
  | setD v d =>
      simp only [denseApply, UndirectedGraph.set_vertex_data,
        Option.some.injEq, Prod.mk.injEq] at h
      obtain ⟨h1, rfl⟩ := h
      cases hl : g.get_index_from_id v with
      | none => simp only [hl] at h1; rw [← h1]; exact ⟨hlen, hnd, hids⟩
      | some pos =>
          simp only [hl] at h1
          rw [← h1]
          refine ⟨?_, ?_, ?_⟩
          · simpa [setData_length] using hlen
          · simpa [setData_map_fst] using hnd
          · simpa [setData_map_fst] using hids

theorem denseRun_invariant {T : Type} :
    ∀ (ops : List (Op T)) (g g' : UndirectedGraph T) (hs : List Nat),
      g.invariant → denseRunFrom g ops = some (g', hs) → g'.invariant := by
  intro ops
  induction ops with
  | nil =>
      intro g g' hs hInv h
      simp only [denseRunFrom, Option.some.injEq, Prod.mk.injEq] at h
      obtain ⟨rfl, rfl⟩ := h
      exact hInv
  | cons op ops ih =>
      intro g g' hs hInv h
      simp only [denseRunFrom] at h
      cases ha : denseApply g op with
      | none => simp only [ha] at h; simp at h
      | some p =>
          obtain ⟨g1, hs1⟩ := p
          simp only [ha] at h
          cases hr : denseRunFrom g1 ops with
          | none => simp only [hr] at h; simp at h
          | some q =>
              obtain ⟨g2, hs2⟩ := q
              simp only [hr, Option.some.injEq, Prod.mk.injEq] at h
              obtain ⟨rfl, rfl⟩ := h
              exact ih g1 g2 hs2 (denseApply_invariant g op g1 hs1 hInv ha) hr

end Istos
